import Mathlib
/-!
# Verification of the `ez-web3-rpc-rs` provider selection / consensus engine

Shallow embedding of the pure decision logic of the repository:

* `src/calls.rs` — `RpcCalls::consensus`, `bft_consensus`, `consensus_attempt`,
  `stable_string`, `sort_value`, `apply_cooldown`;
* `src/performance/measure.rs` — `is_permit2_bytecode_valid`, the per-endpoint
  check-result construction and the post-probe aggregation of `measure_rpcs`;
* `src/performance/pick_fastest.rs` and `src/strategy/get_fastest.rs`;
* `src/provider/retry_proxy.rs` — `RetryProvider::send_request` / `race_batch`.

Network I/O is abstracted as data: a consensus round is modelled by the ordered
list of per-provider outcomes in the order the dispatch loop folds them (the
fold order is the spawn order of the shuffled URL list), and the retry proxy
by an oracle mapping a (pass, url) attempt to an optional response.  Rust
`HashMap`s are modelled as association lists; where the source iterates a
`HashMap` (`max_by_key` over vote counts) the iteration order of the model is
the insertion order, and theorems that depend on iteration order say so.
`f64` quorum thresholds are modelled exactly in hundredths (a threshold of
`0.66` is the natural number `66`), so every `ceil` below is computed by
exact integer arithmetic; every concrete threshold appearing in a claim
(0.66, 0.8, 0.5, and the 0.05 relaxation step) is an exact hundredth.  The
accompanying comments note the one place where `f64` rounding could shift an
intermediate step (the BFT relaxation descent) without changing the value
ultimately returned.
-/

/-! ## JSON values (`serde_json::Value`)

Arrays and objects are encoded with dedicated list types so that all
recursions below are structural.  `num` carries an `Int`: the only JSON
numbers any theorem in this file touches are small integers, and
`serde_json` prints an integer number as its plain decimal form.
-/

mutual

inductive Json where
  | null : Json
  | bool (b : Bool) : Json
  | num (n : Int) : Json
  | str (s : String) : Json
  | arr (elems : JsonList) : Json
  | obj (fields : JsonFields) : Json

inductive JsonList where
  | nil : JsonList
  | cons (hd : Json) (tl : JsonList) : JsonList

inductive JsonFields where
  | nil : JsonFields
  | cons (key : String) (val : Json) (tl : JsonFields) : JsonFields

end

/-- Insert one key/value pair into a key-sorted field list (ascending keys). -/
def insertFieldSorted (k : String) (v : Json) : JsonFields → JsonFields
  | .nil => .cons k v .nil
  | .cons k' v' tl =>
    if k ≤ k' then .cons k v (.cons k' v' tl)
    else .cons k' v' (insertFieldSorted k v tl)

/-- Sort the fields of an object by key (ascending), keeping each key's value.
Models the `keys.sort(); for key in keys { obj.remove(&key) … }` loop of
`RpcCalls::sort_value` (`src/calls.rs:306-324`); `serde_json` object keys are
unique, so sorting the entries by key is the same reinsertion. -/
def sortFieldsByKey : JsonFields → JsonFields
  | .nil => .nil
  | .cons k v tl => insertFieldSorted k v (sortFieldsByKey tl)

mutual

/-- `RpcCalls::sort_value` (`src/calls.rs:306-324`): recursively sort object
keys; arrays keep their order; leaves unchanged.  The source sorts the keys of
an object and then recurses into each value; here the recursion into values
happens first and the key sort second — the two commute because the sort
compares keys only and the recursion rewrites values only. -/
def sortValue : Json → Json
  | .null => .null
  | .bool b => .bool b
  | .num n => .num n
  | .str s => .str s
  | .arr xs => .arr (sortValues xs)
  | .obj fs => .obj (sortFieldsByKey (sortFields fs))

def sortValues : JsonList → JsonList
  | .nil => .nil
  | .cons x tl => .cons (sortValue x) (sortValues tl)

def sortFields : JsonFields → JsonFields
  | .nil => .nil
  | .cons k v tl => .cons k (sortValue v) (sortFields tl)

end

def hexDigitChar (n : Nat) : Char :=
  if n < 10 then Char.ofNat (48 + n) else Char.ofNat (87 + n)

/-- `serde_json`'s default string escaping for one character. -/
def escapeChar (c : Char) : String :=
  if c = '"' then "\\\""
  else if c = '\\' then "\\\\"
  else if c = '\n' then "\\n"
  else if c = '\r' then "\\r"
  else if c = '\t' then "\\t"
  else if c.toNat = 8 then "\\b"
  else if c.toNat = 12 then "\\f"
  else if c.toNat < 32 then
    "\\u00" ++ String.mk [hexDigitChar (c.toNat / 16), hexDigitChar (c.toNat % 16)]
  else String.mk [c]

def escapeString (s : String) : String :=
  String.join (s.toList.map escapeChar)

mutual

/-- `serde_json::to_string`: compact serialization, object fields in list
order, integer numbers in plain decimal. -/
def serialize : Json → String
  | .null => "null"
  | .bool true => "true"
  | .bool false => "false"
  | .num n => toString n
  | .str s => "\"" ++ escapeString s ++ "\""
  | .arr xs => "[" ++ serializeElems xs ++ "]"
  | .obj fs => "\x7b" ++ serializeFields fs ++ "\x7d"

def serializeElems : JsonList → String
  | .nil => ""
  | .cons x .nil => serialize x
  | .cons x (JsonList.cons y tl) =>
    serialize x ++ "," ++ serializeElems (JsonList.cons y tl)

def serializeFields : JsonFields → String
  | .nil => ""
  | .cons k v .nil => "\"" ++ escapeString k ++ "\":" ++ serialize v
  | .cons k v (JsonFields.cons k' v' tl) =>
    "\"" ++ escapeString k ++ "\":" ++ serialize v ++ ","
      ++ serializeFields (JsonFields.cons k' v' tl)

end

/-- `RpcCalls::stable_string` (`src/calls.rs:294-304`): a plain JSON string is
used verbatim (no quotes); any other value is key-sorted and serialized. -/
def stableString (val : Json) : String :=
  match val with
  | .str s => s
  | v => serialize (sortValue v)

/-! ## Association-list helpers (Rust `HashMap` contents) -/

/-- First value stored under key `k` (`HashMap::get`; keys are unique). -/
def lookupKey {β : Type} (k : String) : List (String × β) → Option β
  | [] => none
  | p :: ps => if p.1 = k then some p.2 else lookupKey k ps

/-- `counts.get(key).unwrap_or(&0)`. -/
def countOf (counts : List (String × Nat)) (k : String) : Nat :=
  (lookupKey k counts).getD 0

/-- `*counts.entry(key).or_insert(0) += 1`: bump the entry, first insertion
appends (the list order is the insertion order of the map's keys). -/
def bumpCount (counts : List (String × Nat)) (k : String) : List (String × Nat) :=
  if (lookupKey k counts).isSome then
    counts.map (fun p => if p.1 = k then (p.1, p.2 + 1) else p)
  else counts ++ [(k, 1)]

/-- `HashMap::insert`: overwrite the value under `k`, or append a new entry. -/
def insertKV {β : Type} (kv : List (String × β)) (k : String) (v : β) : List (String × β) :=
  if (lookupKey k kv).isSome then
    kv.map (fun p => if p.1 = k then (k, v) else p)
  else kv ++ [(k, v)]

/-- Rust `Iterator::min_by_key`: the FIRST element attaining the minimal key.
Used by `pick_fastest` / `get_fastest` over `LatencyMap` iteration. -/
def minByKeyFirst : List (String × Nat) → Option (String × Nat)
  | [] => none
  | p :: ps =>
    match minByKeyFirst ps with
    | none => some p
    | some q => if q.2 < p.2 then some q else some p

/-- Rust `Iterator::max_by_key`: the LAST element attaining the maximal key.
Used by `consensus_attempt` and `measure_rpcs` over `HashMap` iteration; the
model iterates in insertion order (real `HashMap` iteration order is
unspecified, which is exactly what C7 is about). -/
def maxByKeyLast : List (String × Nat) → Option (String × Nat)
  | [] => none
  | p :: ps =>
    match maxByKeyLast ps with
    | none => some p
    | some q => if p.2 ≤ q.2 then some q else some p

/-! ## `pick_fastest` / `get_fastest` (`src/performance/pick_fastest.rs`,
`src/strategy/get_fastest.rs`)

Both run `latencies.iter().min_by_key(|(_, latency)| *latency).map(|(url, _)|
url.clone())` over the latency map; the map is modelled by its iteration
sequence (an association list with unique keys). -/

def pick_fastest (latencies : List (String × Nat)) : Option String :=
  (minByKeyFirst latencies).map (·.1)

/-- The selection expression inside `get_fastest` (`src/strategy/get_fastest.rs:7-10`),
identical text to `pick_fastest`. -/
def get_fastest_select (latencies : List (String × Nat)) : Option String :=
  (minByKeyFirst latencies).map (·.1)

/-! ## Cooldown tracker (`RpcCalls::apply_cooldown`, `src/calls.rs:326-347`)

`Instant` timestamps are modelled as natural milliseconds; `Instant::now()`
is passed in explicitly (it is monotone, which theorems take as a
hypothesis).  The `f64` computation
`(base_ms as f64) * factor.powi(strikes-1)` with `factor ∈ {1.5, 2.0}`,
truncated by an `as u64` cast, is modelled exactly as
`base_ms * num^(strikes-1) / den^(strikes-1)` in `ℕ` (truncating division),
with `(num, den) = (2, 1)` for a rate-limited failure and `(3, 2)` otherwise;
for every concrete value appearing in a theorem below the `f64` computation
is exact, so the two agree. -/

structure CooldownInfo where
  until_ms : Nat
  strikes : Nat

deriving DecidableEq

/-- The capped delay for a given strike count: `base * factor^(strikes-1)`
truncated, capped at 5 minutes (300000 ms). -/
def cooldownDelay (base_ms : Nat) (strikes : Nat) (is_rate_limit : Bool) : Nat :=
  let d := if is_rate_limit then base_ms * 2 ^ (strikes - 1)
           else base_ms * 3 ^ (strikes - 1) / 2 ^ (strikes - 1)
  min d (5 * 60 * 1000)

/-- One `apply_cooldown` call for a URL whose existing entry is `existing`:
strikes increment (first failure starts at 1) and `until` is set to
`now + delay` — unconditionally overwriting the previous entry. -/
def applyCooldown (existing : Option CooldownInfo) (now base_ms : Nat)
    (is_rate_limit : Bool) : CooldownInfo :=
  let strikes := (existing.map (·.strikes)).getD 0 + 1
  { strikes := strikes
    until_ms := now + cooldownDelay base_ms strikes is_rate_limit }

/-! ## Consensus engine (`RpcCalls`, `src/calls.rs:44-292`)

A round is modelled by the list of per-provider outcomes in the order the
dispatch loop folds them: the loop spawns one task per shuffled URL and
always drains completed tasks in spawn order, so the fold order is the
shuffled URL order regardless of the concurrency limit and of network
timing.  `some v` is a successful JSON-RPC response carrying `result = v`;
`none` is any failure (HTTP error, missing result, parse error, timeout) —
failures only feed `apply_cooldown` and never change the tally.

Thresholds are in hundredths: `t : Nat` stands for the fraction `t / 100`,
and `ceil(len * t/100)` is the exact `(len * t + 99) / 100`. -/

inductive RpcHandlerError where
  | NoAvailableRpcs (network_id : Nat)
  | JsonRpc (url : String)
  | AllEndpointsFailed
  | ConsensusFailure (most_common : String)
  | SerializationError (msg : String)

deriving DecidableEq

structure TallyState where
  results : List Json
  counts : List (String × Nat)
  key_to_value : List (String × Json)
  aborted : Bool

/-- `(results_len as f64 * quorum_threshold).ceil() as usize`, with the
threshold in exact hundredths. -/
def dynamicQuorum (len : Nat) (t : Nat) : Nat :=
  (len * t + 99) / 100

/-- `maybe_abort_early` (`src/calls.rs:175-181`). -/
def maybeAbortEarly (allow : Bool) (t : Nat) (counts : List (String × Nat))
    (results_len : Nat) (key : String) : Bool :=
  allow && decide (dynamicQuorum results_len t ≤ countOf counts key)

/-- Folding one task outcome into the tally (`src/calls.rs:229-251`):
a success pushes the raw value, bumps the vote count of its stable key,
overwrites the key's representative value, and then checks for early abort;
a failure leaves the tally unchanged (it only cools the URL down). -/
def foldOutcome (allow : Bool) (t : Nat) (st : TallyState) (o : Option Json) : TallyState :=
  match o with
  | none => st
  | some v =>
    let key := stableString v
    let results := st.results ++ [v]
    let counts := bumpCount st.counts key
    { results := results
      counts := counts
      key_to_value := insertKV st.key_to_value key v
      aborted := maybeAbortEarly allow t counts results.length key }

/-- The whole dispatch loop: outcomes are folded in order until the list is
exhausted or an early abort fires (once `aborted` is set the remaining
in-flight tasks are abandoned and never folded). -/
def foldOutcomes (allow : Bool) (t : Nat) : TallyState → List (Option Json) → TallyState
  | st, [] => st
  | st, o :: rest =>
    if st.aborted then st
    else foldOutcomes allow t (foldOutcome allow t st o) rest

structure ConsensusAttemptResult where
  success : Bool
  value : Option Json
  counts : List (String × Nat)
  results : List Json
  most_common_key : Option String
  key_to_value : List (String × Json)

/-- `RpcCalls::consensus_attempt` (`src/calls.rs:124-292`), from the fold
loop onward: empty results short-circuit to failure; otherwise the final
quorum is `ceil(totalResults * threshold)` and the mode key (`max_by_key`
over the vote-count map, modelled in insertion order) wins iff its count
meets the final quorum. -/
def consensusAttempt (t : Nat) (allow_early_abort : Bool)
    (outcomes : List (Option Json)) : ConsensusAttemptResult :=
  let st := foldOutcomes allow_early_abort t ⟨[], [], [], false⟩ outcomes
  if st.results.isEmpty then
    { success := false, value := none, counts := st.counts, results := st.results
      most_common_key := none, key_to_value := st.key_to_value }
  else
    let final_quorum := dynamicQuorum st.results.length t
    match (maxByKeyLast st.counts).map (·.1) with
    | some key =>
      if final_quorum ≤ countOf st.counts key then
        { success := true, value := lookupKey key st.key_to_value
          counts := st.counts, results := st.results
          most_common_key := some key, key_to_value := st.key_to_value }
      else
        { success := false, value := none, counts := st.counts, results := st.results
          most_common_key := some key, key_to_value := st.key_to_value }
    | none =>
      { success := false, value := none, counts := st.counts, results := st.results
        most_common_key := none, key_to_value := st.key_to_value }

/-- `RpcCalls::consensus` (`src/calls.rs:45-67`) after candidate selection:
early abort enabled; on success the winning representative value is decoded
(decoding is modelled as the identity on `Json`); every other case is a
`ConsensusFailure` carrying the leading key (or "n/a"). -/
def consensus (t : Nat) (outcomes : List (Option Json)) : Except RpcHandlerError Json :=
  let attempt := consensusAttempt t true outcomes
  match attempt.success, attempt.value with
  | true, some v => .ok v
  | _, _ => .error (.ConsensusFailure (attempt.most_common_key.getD "n/a"))

/-- The threshold-relaxation loop of `bft_consensus` (`src/calls.rs:96-112`).
`curr - 5` is the Rust `(curr - 0.05).max(0.0)` (truncated subtraction).
`fuel` bounds the iteration count — the Rust `while` strictly lowers `curr`
by 0.05 per step, so for `min_threshold > 0` it takes at most
`threshold/0.05 + 1` steps and every use below passes ample fuel (for
`min_threshold = 0` the Rust loop would spin forever once `curr` hits 0; no
claim exercises that).  The `key_to_value.get(..).unwrap()` in the source
cannot fail for an attempt the tally produced; the model maps that
impossible case to a distinguished failure. -/
def bftRelax (att : ConsensusAttemptResult) (min_threshold : Nat) :
    Nat → Nat → Except RpcHandlerError Json
  | 0, _ => .error (.ConsensusFailure "Could not reach BFT consensus down to minimum threshold")
  | fuel + 1, curr =>
    if curr < min_threshold then
      .error (.ConsensusFailure "Could not reach BFT consensus down to minimum threshold")
    else
      let needed := dynamicQuorum att.results.length curr
      if needed = 0 then
        .error (.ConsensusFailure "Could not reach BFT consensus down to minimum threshold")
      else
        match att.most_common_key with
        | some key =>
          if needed ≤ countOf att.counts key then
            match lookupKey key att.key_to_value with
            | some v => .ok v
            | none => .error (.SerializationError "key_to_value missing most common key")
          else bftRelax att min_threshold fuel (curr - 5)
        | none => bftRelax att min_threshold fuel (curr - 5)

/-- `RpcCalls::bft_consensus` (`src/calls.rs:70-117`): one base attempt with
early abort disabled; immediate success decodes the winner; with zero
collected responses it fails permanently; otherwise the threshold is relaxed
in steps of 0.05 starting from `threshold - 0.05` — re-evaluating only the
already-collected tally, never issuing new requests (`bftRelax` reads nothing
but the base attempt). -/
def bft_consensus (t min_threshold : Nat) (outcomes : List (Option Json)) :
    Except RpcHandlerError Json :=
  let base := consensusAttempt t false outcomes
  match base.success, base.value with
  | true, some v => .ok v
  | _, _ =>
    if base.results.isEmpty then
      .error (.ConsensusFailure "No successful RPC responses for BFT consensus")
    else
      bftRelax base min_threshold 64 (t - 5)

/-! ## Probe service (`src/performance/measure.rs`)

`post_request` never fails the operation: it always yields a triple
`(has_result, parsed_body, duration)`, modelled by `SubCall`.  The
per-endpooint check construction and the post-probe aggregation are embedded
verbatim; network behaviour is the data in the `SubCall`s. -/

structure RpcCheckResult where
  url : String
  success : Bool
  duration : Nat
  block_number : Option String
  bytecode_ok : Bool

deriving DecidableEq

/-- Lookup of a field of a JSON object (`serde_json::Value::get`); `none` on
non-objects and missing keys. -/
def getFieldAux (k : String) : JsonFields → Option Json
  | .nil => none
  | .cons k' v tl => if k' = k then some v else getFieldAux k tl

def Json.getField (v : Json) (k : String) : Option Json :=
  match v with
  | .obj fs => getFieldAux k fs
  | _ => none

/-- `Value::as_str`. -/
def Json.asStr : Json → Option String
  | .str s => some s
  | _ => none

/-- `is_permit2_bytecode_valid` (`src/performance/measure.rs:19-26`): the
probe bytecode must start with the fixed expected magic prefix. -/
def is_permit2_bytecode_valid (bytecode : Option String) : Bool :=
  match bytecode with
  | some code => "0x604060808152600".isPrefixOf code
  | none => false

/-- Outcome of one `post_request` sub-call: `ok` is the "HTTP success, JSON
parses, and a `result` field is present" flag; `data` is the parsed body. -/
structure SubCall where
  ok : Bool
  data : Option Json
  duration : Nat

/-- The per-endpoint async block of `measure_rpcs`
(`src/performance/measure.rs:87-138`): extract the block number string from
`result.number`, the bytecode from the code call's `result`, validate the
bytecode prefix; `success` requires both sub-calls ok AND valid bytecode;
`duration` is the max of the two sub-call durations. -/
def probeCheck (url : String) (block code : SubCall) : RpcCheckResult :=
  let block_number :=
    match block.data with
    | some j =>
      match j.getField "result" with
      | some r =>
        match r.getField "number" with
        | some n => n.asStr
        | none => none
      | none => none
    | none => none
  let bytecode :=
    match code.data with
    | some j =>
      match j.getField "result" with
      | some r => r.asStr
      | none => none
    | none => none
  let bytecode_ok := is_permit2_bytecode_valid bytecode
  { url := url
    success := block.ok && code.ok && bytecode_ok
    duration := max block.duration code.duration
    block_number := block_number
    bytecode_ok := bytecode_ok }

/-- The block-number tally of `measure_rpcs`
(`src/performance/measure.rs:144-149`): every check that reported a block
number is counted — successful or not. -/
def blockCounts (results : List RpcCheckResult) : List (String × Nat) :=
  results.foldl
    (fun acc r =>
      match r.block_number with
      | some b => bumpCount acc b
      | none => acc) []

/-- `most_common` (`src/performance/measure.rs:151-154`): `max_by_key` over
the tally (modelled in insertion order). -/
def mostCommonBlock (results : List RpcCheckResult) : Option String :=
  (maxByKeyLast (blockCounts results)).map (·.1)

/-- The latency-map construction (`src/performance/measure.rs:156-171`):
skip failed checks; skip checks whose reported block number differs from the
majority (when both are present); insert everything else. -/
def buildLatencies (results : List RpcCheckResult) (most_common : Option String) :
    List (String × Nat) :=
  results.foldl
    (fun acc r =>
      if !r.success then acc
      else
        match r.block_number, most_common with
        | some b, some c => if b ≠ c then acc else insertKV acc r.url r.duration
        | _, _ => insertKV acc r.url r.duration) []

/-- The pure tail of `measure_rpcs`: latency map from the check results. -/
def measureAggregate (results : List RpcCheckResult) : List (String × Nat) :=
  buildLatencies results (mostCommonBlock results)

/-- The majority block number as claim C2 words it ("the mode of the block
numbers reported by the successful checks only") — for comparison with the
code's `mostCommonBlock`, which tallies every check that reported a number. -/
def mostCommonBlockOfSuccessful (results : List RpcCheckResult) : Option String :=
  (maxByKeyLast (blockCounts (results.filter (·.success)))).map (·.1)

/-! ## Retrying proxy (`src/provider/retry_proxy.rs`)

`send_request` is modelled as a pure function of an attempt oracle
`oracle pass url`, giving the response (`some r`) or failure (`none`) of the
HTTP attempt against `url` during pass number `pass` (0-based).  Besides the
result, the model returns the trace: the list of URLs attempted (in dispatch
order; a batch races all of its URLs concurrently, and `race_batch` awaits
them all via `join_all` before scanning, so all batch members count as
attempted) and the number of `sleep(retry_delay)` calls. -/

structure RetryTrace where
  attempts : List String
  sleeps : Nat

deriving DecidableEq

/-- `urls.chunks(3)`: order-preserving batches of 3 (last may be shorter). -/
def chunks3 {α : Type} : List α → List (List α)
  | [] => []
  | a :: b :: c :: rest => [a, b, c] :: chunks3 rest
  | l => [l]

/-- `RetryProvider::race_batch` (`src/provider/retry_proxy.rs:110-152`):
await all attempts, then return the first `Ok` in batch order, or
`AllEndpointsFailed` if every member failed. -/
def raceBatch (oracle : Nat → String → Option Json) (pass : Nat) :
    List String → Except RpcHandlerError Json
  | [] => .error .AllEndpointsFailed
  | u :: rest =>
    match oracle pass u with
    | some r => .ok r
    | none => raceBatch oracle pass rest

/-- One iteration of the outer `while` of `send_request`
(`src/provider/retry_proxy.rs:66-105`): walk the batches; a successful batch
returns immediately; a failed batch either surfaces its error (when this is
the last batch of the last pass) or sleeps `retry_delay` and continues.
`none` as second component means "pass exhausted, continue with next pass". -/
def runPass (oracle : Nat → String → Option Json) (pass : Nat) (isLastPass : Bool) :
    List (List String) → RetryTrace → RetryTrace × Option (Except RpcHandlerError Json)
  | [], tr => (tr, none)
  | batch :: rest, tr =>
    let tr1 : RetryTrace := { tr with attempts := tr.attempts ++ batch }
    match raceBatch oracle pass batch with
    | .ok r => (tr1, some (.ok r))
    | .error e =>
      if isLastPass && rest.isEmpty then (tr1, some (.error e))
      else runPass oracle pass isLastPass rest
        { tr1 with sleeps := tr1.sleeps + 1 }

/-- The outer retry loop: `loops` counts down from `retry_count`; when it
hits 0 without a batch having returned, the loop falls through to
`Err(AllEndpointsFailed)`. -/
def sendLoopAux (oracle : Nat → String → Option Json) (batches : List (List String)) :
    Nat → Nat → RetryTrace → RetryTrace × Except RpcHandlerError Json
  | 0, _, tr => (tr, .error .AllEndpointsFailed)
  | loops + 1, pass, tr =>
    match runPass oracle pass (loops == 0) batches tr with
    | (tr1, some r) => (tr1, r)
    | (tr1, none) => sendLoopAux oracle batches loops (pass + 1) tr1

/-- `urls` assembly at the top of `send_request`
(`src/provider/retry_proxy.rs:52-56`): the ordered URL list, with the base
URL forced to the front if not already present. -/
def assembleUrls (ordered : List String) (base_url : String) : List String :=
  if base_url ∈ ordered then ordered else base_url :: ordered

/-- `RetryProvider::send_request` (`src/provider/retry_proxy.rs:48-108`).
The `urls.is_empty()` guard is kept although it can never fire (the
assembled list always contains the base URL). -/
def send_request (oracle : Nat → String → Option Json) (ordered : List String)
    (base_url : String) (retry_count : Nat) (network_id : Nat) :
    RetryTrace × Except RpcHandlerError Json :=
  let urls := assembleUrls ordered base_url
  if urls.isEmpty then (⟨[], 0⟩, .error (.NoAvailableRpcs network_id))
  else sendLoopAux oracle (chunks3 urls) retry_count 0 ⟨[], 0⟩

/-! ## Theorems -/

theorem minByKeyFirst_mem {l : List (String × Nat)} {q : String × Nat}
    (h : minByKeyFirst l = some q) : q ∈ l := by
  induction l with
  | nil => simp [minByKeyFirst] at h
  | cons p ps ih =>
    simp only [minByKeyFirst] at h
    cases hps : minByKeyFirst ps with
    | none => rw [hps] at h; simp at h; simp [h]
    | some r =>
      rw [hps] at h
      by_cases hlt : r.2 < p.2
      · simp [hlt] at h; subst h; exact List.mem_cons_of_mem _ (ih hps)
      · simp [hlt] at h; simp [h]

theorem minByKeyFirst_eq_none {l : List (String × Nat)}
    (h : minByKeyFirst l = none) : l = [] := by
  cases l with
  | nil => rfl
  | cons p ps =>
    simp only [minByKeyFirst] at h
    cases hps : minByKeyFirst ps with
    | none => simp [hps] at h
    | some q =>
      simp only [hps] at h
      split at h <;> simp at h

theorem minByKeyFirst_min {l : List (String × Nat)} :
    ∀ {q : String × Nat}, minByKeyFirst l = some q → ∀ p ∈ l, q.2 ≤ p.2 := by
  induction l with
  | nil => intro q h; simp [minByKeyFirst] at h
  | cons p ps ih =>
    intro q h r hr
    simp only [minByKeyFirst] at h
    cases hps : minByKeyFirst ps with
    | none =>
      rw [hps] at h
      simp at h
      have hnil := minByKeyFirst_eq_none hps
      subst hnil
      simp at hr
      subst h; subst hr
      exact Nat.le_refl _
    | some m =>
      rw [hps] at h
      have hmem : ∀ x ∈ ps, m.2 ≤ x.2 := ih hps
      rcases List.mem_cons.mp hr with rfl | hr'
      · by_cases hlt : m.2 < r.2
        · simp [hlt] at h; subst h; exact Nat.le_of_lt hlt
        · simp [hlt] at h; subst h; exact Nat.le_refl _
      · by_cases hlt : m.2 < p.2
        · simp [hlt] at h; subst h; exact hmem r hr'
        · simp [hlt] at h; subst h
          exact Nat.le_trans (Nat.le_of_not_lt hlt) (hmem r hr')

theorem minByKeyFirst_isSome {l : List (String × Nat)} (h : l ≠ []) :
    (minByKeyFirst l).isSome := by
  cases l with
  | nil => exact absurd rfl h
  | cons p ps =>
    simp only [minByKeyFirst]
    cases minByKeyFirst ps with
    | none => rfl
    | some q => by_cases hlt : q.2 < p.2 <;> simp [hlt]

theorem maxByKeyLast_mem {l : List (String × Nat)} {q : String × Nat}
    (h : maxByKeyLast l = some q) : q ∈ l := by
  induction l with
  | nil => simp [maxByKeyLast] at h
  | cons p ps ih =>
    simp only [maxByKeyLast] at h
    cases hps : maxByKeyLast ps with
    | none => rw [hps] at h; simp at h; simp [h]
    | some r =>
      rw [hps] at h
      by_cases hle : p.2 ≤ r.2
      · simp [hle] at h; subst h; exact List.mem_cons_of_mem _ (ih hps)
      · simp [hle] at h; simp [h]

theorem maxByKeyLast_eq_none {l : List (String × Nat)}
    (h : maxByKeyLast l = none) : l = [] := by
  cases l with
  | nil => rfl
  | cons p ps =>
    simp only [maxByKeyLast] at h
    cases hps : maxByKeyLast ps with
    | none => simp [hps] at h
    | some q =>
      simp only [hps] at h
      split at h <;> simp at h

theorem maxByKeyLast_max {l : List (String × Nat)} :
    ∀ {q : String × Nat}, maxByKeyLast l = some q → ∀ p ∈ l, p.2 ≤ q.2 := by
  induction l with
  | nil => intro q h; simp [maxByKeyLast] at h
  | cons p ps ih =>
    intro q h r hr
    simp only [maxByKeyLast] at h
    cases hps : maxByKeyLast ps with
    | none =>
      rw [hps] at h
      simp at h
      have hnil := maxByKeyLast_eq_none hps
      subst hnil
      simp at hr
      subst h; subst hr
      exact Nat.le_refl _
    | some m =>
      rw [hps] at h
      have hmem : ∀ x ∈ ps, x.2 ≤ m.2 := ih hps
      rcases List.mem_cons.mp hr with rfl | hr'
      · by_cases hle : r.2 ≤ m.2
        · simp [hle] at h; subst h; exact hle
        · simp [hle] at h; subst h; exact Nat.le_refl _
      · by_cases hle : p.2 ≤ m.2
        · simp [hle] at h; subst h; exact hmem r hr'
        · simp [hle] at h; subst h
          exact Nat.le_trans (hmem r hr') (Nat.le_of_not_le hle)

theorem cooldownDelay_le_cap (base_ms strikes : Nat) (is_rate_limit : Bool) :
    cooldownDelay base_ms strikes is_rate_limit ≤ 5 * 60 * 1000 :=
  Nat.min_le_right _ _

theorem cooldownDelay_mono_strikes (base_ms : Nat) {s s' : Nat} (h : s ≤ s')
    (is_rate_limit : Bool) :
    cooldownDelay base_ms s is_rate_limit ≤ cooldownDelay base_ms s' is_rate_limit := by
  unfold cooldownDelay
  apply min_le_min _ (le_refl _)
  cases is_rate_limit with
  | true =>
    simp only [Bool.true_eq, if_pos rfl]
    exact Nat.mul_le_mul_left _ (Nat.pow_le_pow_right (by norm_num) (by omega))
  | false =>
    rw [if_neg (by simp), if_neg (by simp)]
    -- base * 3^(s-1) / 2^(s-1) is nondecreasing in s
    have key : ∀ k : Nat, base_ms * 3 ^ k / 2 ^ k ≤ base_ms * 3 ^ (k + 1) / 2 ^ (k + 1) := by
      intro k
      rw [Nat.le_div_iff_mul_le (Nat.pos_pow_of_pos _ (by norm_num))]
      calc base_ms * 3 ^ k / 2 ^ k * 2 ^ (k + 1)
          = base_ms * 3 ^ k / 2 ^ k * 2 ^ k * 2 := by ring
        _ ≤ base_ms * 3 ^ k * 2 := Nat.mul_le_mul_right _ (Nat.div_mul_le_self _ _)
        _ ≤ base_ms * 3 ^ (k + 1) := by rw [pow_succ]; nlinarith [Nat.zero_le (base_ms * 3 ^ k)]
    have chain : ∀ a b : Nat, a ≤ b →
        base_ms * 3 ^ a / 2 ^ a ≤ base_ms * 3 ^ b / 2 ^ b := by
      intro a b hab
      induction b with
      | zero =>
        have : a = 0 := by omega
        subst this; exact Nat.le_refl _
      | succ n ihn =>
        rcases Nat.lt_or_ge a (n + 1) with hlt | hge
        · exact Nat.le_trans (ihn (by omega)) (key n)
        · have : a = n + 1 := by omega
          subst this; exact Nat.le_refl _
    exact chain _ _ (by omega)

/-! ## Supporting lemmas -/

theorem lookupKey_isSome_iff {β : Type} {k : String} :
    ∀ {l : List (String × β)}, (lookupKey k l).isSome ↔ k ∈ l.map (·.1) := by
  intro l
  induction l with
  | nil => simp [lookupKey]
  | cons p ps ih =>
    simp only [lookupKey, List.map_cons, List.mem_cons]
    by_cases hp : p.1 = k
    · simp [hp]
    · simp [hp, ih, Ne.symm hp]

theorem mem_keys_insertKV {β : Type} {acc : List (String × β)} {k u : String} {v : β} :
    u ∈ (insertKV acc k v).map (·.1) ↔ u = k ∨ u ∈ acc.map (·.1) := by
  unfold insertKV
  by_cases hk : (lookupKey k acc).isSome
  · simp only [hk, if_true, List.map_map]
    have hfun : ((·.1) ∘ fun p : String × β => if p.1 = k then (k, v) else p) = (·.1) := by
      funext p
      by_cases hp : p.1 = k <;> simp [hp]
    rw [hfun]
    constructor
    · exact Or.inr
    · rintro (rfl | hu)
      · exact lookupKey_isSome_iff.mp hk
      · exact hu
  · rw [if_neg hk]
    simp only [List.map_append, List.map_cons, List.map_nil]
    rw [List.mem_append]
    constructor
    · rintro (hu | hu)
      · exact Or.inr hu
      · simp at hu; exact Or.inl hu
    · rintro (rfl | hu)
      · exact Or.inr (by simp)
      · exact Or.inl hu

/-- Every key of the latency map comes from a check that was successful and
whose reported block number matched the majority (whenever both exist). -/
theorem mem_keys_buildLatencies_aux {mc : Option String} :
    ∀ (results : List RpcCheckResult) (acc : List (String × Nat)) (u : String),
      u ∈ (results.foldl
        (fun acc r =>
          if !r.success then acc
          else
            match r.block_number, mc with
            | some b, some c => if b ≠ c then acc else insertKV acc r.url r.duration
            | _, _ => insertKV acc r.url r.duration) acc).map (·.1) →
      u ∈ acc.map (·.1) ∨
        ∃ r ∈ results, r.url = u ∧ r.success = true ∧
          ∀ b c, r.block_number = some b → mc = some c → b = c := by
  intro results
  induction results with
  | nil => intro acc u hu; exact Or.inl hu
  | cons r rest ih =>
    intro acc u hu
    rw [List.foldl_cons] at hu
    rcases ih _ u hu with hacc | ⟨r', hr', rfl, hs, hb⟩
    · by_cases hsucc : r.success
      · simp only [hsucc, Bool.not_true, Bool.false_eq_true, if_false] at hacc
        cases hbn : r.block_number with
        | none =>
          rw [hbn] at hacc
          cases mc with
          | none =>
            rcases mem_keys_insertKV.mp hacc with rfl | h
            · exact Or.inr ⟨r, by simp, rfl, hsucc, by simp [hbn]⟩
            · exact Or.inl h
          | some c =>
            rcases mem_keys_insertKV.mp hacc with rfl | h
            · exact Or.inr ⟨r, by simp, rfl, hsucc, by simp [hbn]⟩
            · exact Or.inl h
        | some b =>
          rw [hbn] at hacc
          cases mc with
          | none =>
            rcases mem_keys_insertKV.mp hacc with rfl | h
            · exact Or.inr ⟨r, by simp, rfl, hsucc, by simp⟩
            · exact Or.inl h
          | some c =>
            have hacc2 : u ∈ (if b ≠ c then acc
                else insertKV acc r.url r.duration).map (·.1) := hacc
            by_cases hbc : b ≠ c
            · rw [if_pos hbc] at hacc2
              exact Or.inl hacc2
            · rw [if_neg hbc] at hacc2
              rcases mem_keys_insertKV.mp hacc2 with rfl | h
              · refine Or.inr ⟨r, by simp, rfl, hsucc, ?_⟩
                intro b' c' hb' hc'
                rw [hbn] at hb'
                injection hb' with hb'
                injection hc' with hc'
                subst hb'; subst hc'
                exact not_not.mp hbc
              · exact Or.inl h
      · simp only [Bool.not_eq_true] at hsucc
        simp only [hsucc, Bool.not_false, if_true] at hacc
        exact Or.inl hacc
    · exact Or.inr ⟨r', List.mem_cons_of_mem _ hr', rfl, hs, hb⟩

theorem mem_keys_buildLatencies {results : List RpcCheckResult} {mc : Option String}
    {u : String} (hu : u ∈ (buildLatencies results mc).map (·.1)) :
    ∃ r ∈ results, r.url = u ∧ r.success = true ∧
      ∀ b c, r.block_number = some b → mc = some c → b = c := by
  rcases mem_keys_buildLatencies_aux results [] u hu with h | h
  · simp at h
  · exact h

theorem chunks3_flatten {α : Type} : ∀ l : List α, (chunks3 l).flatten = l
  | [] => rfl
  | [a] => rfl
  | [a, b] => rfl
  | a :: b :: c :: rest => by
    show ([a, b, c] :: chunks3 rest).flatten = a :: b :: c :: rest
    rw [List.flatten_cons, chunks3_flatten rest]
    rfl

theorem chunks3_ne_nil {α : Type} : ∀ {l : List α}, l ≠ [] → chunks3 l ≠ []
  | [], h => absurd rfl h
  | [_], _ => by simp [chunks3]
  | [_, _], _ => by simp [chunks3]
  | _ :: _ :: _ :: _, _ => by simp [chunks3]

theorem raceBatch_allFail (oracle : Nat → String → Option Json) (pass : Nat)
    (hfail : ∀ p u, oracle p u = none) :
    ∀ urls : List String, raceBatch oracle pass urls = .error .AllEndpointsFailed := by
  intro urls
  induction urls with
  | nil => rfl
  | cons u rest ih => simp only [raceBatch, hfail pass u]; exact ih

theorem runPass_cons (oracle : Nat → String → Option Json) (pass : Nat) (last : Bool)
    (batch : List String) (rest : List (List String)) (tr : RetryTrace) :
    runPass oracle pass last (batch :: rest) tr
      = match raceBatch oracle pass batch with
        | .ok r => (⟨tr.attempts ++ batch, tr.sleeps⟩, some (.ok r))
        | .error e =>
          if last && rest.isEmpty then (⟨tr.attempts ++ batch, tr.sleeps⟩, some (.error e))
          else runPass oracle pass last rest ⟨tr.attempts ++ batch, tr.sleeps + 1⟩ := rfl

theorem runPass_allFail (oracle : Nat → String → Option Json) (pass : Nat)
    (hfail : ∀ p u, oracle p u = none) :
    ∀ (batches : List (List String)) (tr : RetryTrace), batches ≠ [] →
      runPass oracle pass true batches tr
        = (⟨tr.attempts ++ batches.flatten, tr.sleeps + (batches.length - 1)⟩,
           some (.error .AllEndpointsFailed))
      ∧ runPass oracle pass false batches tr
        = (⟨tr.attempts ++ batches.flatten, tr.sleeps + batches.length⟩, none) := by
  intro batches
  induction batches with
  | nil => intro tr h; exact absurd rfl h
  | cons b rest ih =>
    intro tr _
    constructor
    · rw [runPass_cons]
      simp only [raceBatch_allFail oracle pass hfail]
      cases hrest : rest with
      | nil => simp
      | cons b2 rest2 =>
        subst hrest
        simp only [List.isEmpty_cons, Bool.and_false, Bool.false_eq_true, if_false]
        rw [(ih ⟨tr.attempts ++ b, tr.sleeps + 1⟩ (by simp)).1]
        simp only [Prod.mk.injEq, RetryTrace.mk.injEq]
        refine ⟨⟨?_, ?_⟩, by trivial⟩
        · simp
        · simp only [List.length_cons]
          omega
    · rw [runPass_cons]
      simp only [raceBatch_allFail oracle pass hfail]
      cases hrest : rest with
      | nil => simp [runPass]
      | cons b2 rest2 =>
        subst hrest
        simp only [List.isEmpty_cons, Bool.and_false, Bool.false_eq_true, if_false]
        rw [(ih ⟨tr.attempts ++ b, tr.sleeps + 1⟩ (by simp)).2]
        simp only [Prod.mk.injEq, RetryTrace.mk.injEq]
        refine ⟨⟨?_, ?_⟩, by trivial⟩
        · simp
        · simp only [List.length_cons]
          omega

theorem sendLoopAux_succ_eq (oracle : Nat → String → Option Json)
    (batches : List (List String)) (n pass : Nat) (tr : RetryTrace) :
    sendLoopAux oracle batches (n + 1) pass tr
      = match runPass oracle pass (n == 0) batches tr with
        | (tr1, some r) => (tr1, r)
        | (tr1, none) => sendLoopAux oracle batches n (pass + 1) tr1 := rfl

theorem sendLoopAux_allFail (oracle : Nat → String → Option Json)
    (batches : List (List String)) (hfail : ∀ p u, oracle p u = none)
    (hb : batches ≠ []) :
    ∀ (loops pass : Nat) (tr : RetryTrace),
      sendLoopAux oracle batches loops pass tr
        = (⟨tr.attempts ++ (List.replicate loops batches.flatten).flatten,
            tr.sleeps + (loops * batches.length - 1)⟩,
           .error .AllEndpointsFailed) := by
  intro loops
  induction loops with
  | zero =>
    intro pass tr
    simp [sendLoopAux]
  | succ n ihn =>
    intro pass tr
    rw [sendLoopAux_succ_eq]
    cases n with
    | zero =>
      have hbeq0 : ((0 : Nat) == 0) = true := rfl
      rw [hbeq0, (runPass_allFail oracle pass hfail batches tr hb).1]
      simp
    | succ m =>
      have hbeq : ((m + 1 : Nat) == 0) = false := rfl
      rw [hbeq, (runPass_allFail oracle pass hfail batches tr hb).2]
      show sendLoopAux oracle batches (m + 1) (pass + 1)
          ⟨tr.attempts ++ batches.flatten, tr.sleeps + batches.length⟩ = _
      rw [ihn]
      simp only [Prod.mk.injEq, RetryTrace.mk.injEq]
      refine ⟨⟨?_, ?_⟩, by trivial⟩
      · simp [List.replicate_succ, List.append_assoc]
      · have hlen := List.length_pos.mpr hb
        have hmul : (m + 1 + 1) * batches.length
            = (m + 1) * batches.length + batches.length := by ring
        have hpos : 1 ≤ (m + 1) * batches.length :=
          Nat.one_le_iff_ne_zero.mpr (Nat.mul_ne_zero (by omega) (by omega))
        omega

theorem assembleUrls_ne_nil (ordered : List String) (base_url : String) :
    assembleUrls ordered base_url ≠ [] := by
  unfold assembleUrls
  by_cases hmem : base_url ∈ ordered
  · rw [if_pos hmem]
    intro h
    subst h
    simp at hmem
  · rw [if_neg hmem]
    simp

theorem consensusAttempt_counts (t : Nat) (allow : Bool) (outcomes : List (Option Json)) :
    (consensusAttempt t allow outcomes).counts
      = (foldOutcomes allow t ⟨[], [], [], false⟩ outcomes).counts := by
  unfold consensusAttempt
  dsimp only
  split
  · rfl
  · split
    · split <;> rfl
    · rfl

theorem consensusAttempt_mck (t : Nat) (allow : Bool) (outcomes : List (Option Json)) :
    (consensusAttempt t allow outcomes).most_common_key
      = if (foldOutcomes allow t ⟨[], [], [], false⟩ outcomes).results.isEmpty then none
        else (maxByKeyLast
          (foldOutcomes allow t ⟨[], [], [], false⟩ outcomes).counts).map (·.1) := by
  unfold consensusAttempt
  dsimp only
  split
  next hres => rfl
  next hres =>
    split
    next key hkey => rw [hkey]; split <;> rfl
    next hkey => rw [hkey]

/-! ## The claims -/

/-- **C1.** The claim says: `consensus` with threshold 0.66 over three
providers answering "a", "a", "b" succeeds with "a", and over three
pairwise-distinct answers fails with `ConsensusFailure`.  The code does
neither: `maybe_abort_early` compares a key's votes against
`ceil(results_so_far * threshold)`, and after the very first successful
response `results_so_far = 1` and `ceil(1 * 0.66) = 1`, so the round aborts
immediately and the first folded response wins.  With fold (shuffle) order
"b","a","a" the call returns "b" (the claim says "a"); with the
pairwise-distinct "a","b","c" it succeeds with "a" (the claim says
`ConsensusFailure`).  This theorem evaluates the embedded code at those
failing inputs. -/
theorem C1_consensus_quorum_code_bug :
    consensus 66 [some (Json.str "b"), some (Json.str "a"), some (Json.str "a")]
      = .ok (Json.str "b") ∧
    consensus 66 [some (Json.str "a"), some (Json.str "b"), some (Json.str "c")]
      = .ok (Json.str "a") :=
  ⟨rfl, rfl⟩

/-- **C2 counterexample.** One successful check at block "0x1" and two failed
checks reporting block "0x2": the code's majority (`mostCommonBlock`) tallies
every check that reported a number, so it is "0x2"; the claim's majority
("mode of the block numbers reported by the successful checks only",
`mostCommonBlockOfSuccessful`) is "0x1".  The successful endpoint "A" agrees
with the successful-only majority, yet the code excludes it: the latency map
is empty, refuting the claim. -/
theorem C2_counterexample_majority_over_all_checks :
    mostCommonBlock
        [⟨"A", true, 10, some "0x1", true⟩,
         ⟨"B", false, 11, some "0x2", false⟩,
         ⟨"C", false, 12, some "0x2", false⟩] = some "0x2" ∧
    mostCommonBlockOfSuccessful
        [⟨"A", true, 10, some "0x1", true⟩,
         ⟨"B", false, 11, some "0x2", false⟩,
         ⟨"C", false, 12, some "0x2", false⟩] = some "0x1" ∧
    measureAggregate
        [⟨"A", true, 10, some "0x1", true⟩,
         ⟨"B", false, 11, some "0x2", false⟩,
         ⟨"C", false, 12, some "0x2", false⟩] = [] :=
  ⟨rfl, rfl, rfl⟩

/-- **C2 (amended).** The majority block number is the mode of the block
numbers reported by ALL checks (successful or not): the key selected by the
`max_by_key` scan has a maximal tally count; and every endpoint (URLs
pairwise distinct) whose reported block number differs from that majority is
excluded from the latency map even if its own probe succeeded. -/
theorem C2_majority_exclusion (results : List RpcCheckResult)
    (hnodup : (results.map (·.url)).Nodup) :
    (∀ q, maxByKeyLast (blockCounts results) = some q →
        ∀ p ∈ blockCounts results, p.2 ≤ q.2) ∧
    (∀ r ∈ results, ∀ b m, r.block_number = some b →
        mostCommonBlock results = some m → b ≠ m →
        r.url ∉ (measureAggregate results).map (·.1)) := by
  constructor
  · intro q hq p hp
    exact maxByKeyLast_max hq p hp
  · intro r hr b m hb hm hbm hu
    obtain ⟨r', hr', hurl, hs, hblocks⟩ := mem_keys_buildLatencies hu
    have heq : r' = r := List.inj_on_of_nodup_map hnodup hr' hr hurl
    subst heq
    exact hbm (hblocks b m hb hm)

/-- Witness for C2_majority_exclusion at the counterexample input: endpoint
"A" (successful, block "0x1" ≠ majority "0x2") is absent from the map. -/
theorem C2_majority_exclusion_witness :
    "A" ∉ (measureAggregate
        [⟨"A", true, 10, some "0x1", true⟩,
         ⟨"B", false, 11, some "0x2", false⟩,
         ⟨"C", false, 12, some "0x2", false⟩]).map (·.1) :=
  (C2_majority_exclusion
      [⟨"A", true, 10, some "0x1", true⟩,
       ⟨"B", false, 11, some "0x2", false⟩,
       ⟨"C", false, 12, some "0x2", false⟩] (by decide)).2
    ⟨"A", true, 10, some "0x1", true⟩ (by decide) "0x1" "0x2" rfl rfl (by decide)

/-- **C3 counterexample.** The backoff factor is chosen per call (2.0 when the
current failure looks rate-limited, 1.5 otherwise), so the delay is NOT
monotone across a streak: with base 1000ms, three rate-limited failures give
delay 1000 → 2000 → 4000, and a fourth, non-rate-limited failure at the same
instant gives `1000 * 1.5^3 = 3375 < 4000` — the `until` timestamp moves
backwards, refuting "the cooldown `until` timestamp never decreases". -/
theorem C3_counterexample_until_decreases :
    (applyCooldown
        (some (applyCooldown
          (some (applyCooldown
            (some (applyCooldown none 0 1000 true)) 0 1000 true)) 0 1000 true))
        0 1000 false).until_ms = 3375 ∧
    (applyCooldown
        (some (applyCooldown
          (some (applyCooldown none 0 1000 true)) 0 1000 true)) 0 1000 true).until_ms = 4000 ∧
    (applyCooldown
        (some (applyCooldown
          (some (applyCooldown
            (some (applyCooldown none 0 1000 true)) 0 1000 true)) 0 1000 true))
        0 1000 false).until_ms
      < (applyCooldown
          (some (applyCooldown
            (some (applyCooldown none 0 1000 true)) 0 1000 true)) 0 1000 true).until_ms := by
  refine ⟨rfl, rfl, ?_⟩
  decide

/-- **C3 (amended).** The computed cooldown delay is always capped at 5
minutes; and across consecutive `applyCooldown` calls for the same URL the
`until` timestamp never decreases PROVIDED the rate-limited flag is the same
at both calls (for a fixed factor the delay `base * factor^(strikes-1)` is
nondecreasing in the strike count); with a flag switch from rate-limited to
not, `until` can decrease (see the counterexample). -/
theorem C3_cooldown_cap_and_same_flag_mono (e : Option CooldownInfo)
    (now now' base_ms : Nat) (flag : Bool) (h : now ≤ now') :
    (applyCooldown e now base_ms flag).until_ms ≤ now + 5 * 60 * 1000 ∧
    (applyCooldown e now base_ms flag).until_ms
      ≤ (applyCooldown (some (applyCooldown e now base_ms flag)) now' base_ms flag).until_ms := by
  constructor
  · exact Nat.add_le_add_left (cooldownDelay_le_cap _ _ _) _
  · show now + cooldownDelay base_ms ((e.map (·.strikes)).getD 0 + 1) flag
        ≤ now' + cooldownDelay base_ms ((e.map (·.strikes)).getD 0 + 1 + 1) flag
    exact Nat.add_le_add h (cooldownDelay_mono_strikes base_ms (Nat.le_succ _) flag)

/-- Witness for C3_cooldown_cap_and_same_flag_mono: a fresh URL failing
(not rate-limited) at time 0 and again at time 5. -/
theorem C3_cooldown_cap_and_same_flag_mono_witness :
    (applyCooldown none 0 30000 false).until_ms ≤ 0 + 5 * 60 * 1000 ∧
    (applyCooldown none 0 30000 false).until_ms
      ≤ (applyCooldown (some (applyCooldown none 0 30000 false)) 5 30000 false).until_ms :=
  C3_cooldown_cap_and_same_flag_mono none 0 5 30000 false (by decide)

/-- **C4.** `bftConsensus` with threshold 0.8 and minThreshold 0.5 over five
collected responses of which three vote "a": the base attempt (early abort
disabled) fails its quorum of `ceil(5*0.8) = 4`, and the relaxation loop —
which only re-reads the base attempt's tally, never the network — descends
0.75, 0.70, 0.65, 0.60 and succeeds at the first step whose
`needed = ceil(5*step)` is positive and ≤ 3, returning the mode key's
representative value "a".  (Under `f64` the accumulated `curr` can sit one
ulp above an exact step so the success can fire one 0.05-step later; the
returned value is the same.) -/
theorem C4_bft_relaxation_succeeds :
    (consensusAttempt 80 false
      [some (Json.str "a"), some (Json.str "a"), some (Json.str "a"),
       some (Json.str "b"), some (Json.str "c")]).success = false ∧
    bft_consensus 80 50
      [some (Json.str "a"), some (Json.str "a"), some (Json.str "a"),
       some (Json.str "b"), some (Json.str "c")]
      = .ok (Json.str "a") :=
  ⟨rfl, rfl⟩

/-- **C5.** If every URL attempt in every batch of every pass fails,
`send_request` returns `AllEndpointsFailed`, and the attempted URLs are
exactly `retry_count` consecutive full passes over the assembled ordered URL
list (each pass walks the order-preserving batches of 3, whose concatenation
is the whole list); no `Ok` response is ever produced. -/
theorem C5_all_attempts_fail (oracle : Nat → String → Option Json)
    (ordered : List String) (base_url : String) (retry_count network_id : Nat)
    (hfail : ∀ p u, oracle p u = none) :
    send_request oracle ordered base_url retry_count network_id
      = (⟨(List.replicate retry_count (assembleUrls ordered base_url)).flatten,
          retry_count * (chunks3 (assembleUrls ordered base_url)).length - 1⟩,
         .error .AllEndpointsFailed) := by
  unfold send_request
  have hne := assembleUrls_ne_nil ordered base_url
  rw [if_neg (by simpa [List.isEmpty_iff] using hne)]
  rw [sendLoopAux_allFail oracle _ hfail (chunks3_ne_nil hne) retry_count 0 ⟨[], 0⟩]
  rw [chunks3_flatten]
  simp

/-- Witness for C5_all_attempts_fail: 4 URLs (base prepended), 2 passes. -/
theorem C5_all_attempts_fail_witness :
    send_request (fun _ _ => none) ["u2", "u3", "u4"] "u1" 2 5
      = (⟨(List.replicate 2 (assembleUrls ["u2", "u3", "u4"] "u1")).flatten,
          2 * (chunks3 (assembleUrls ["u2", "u3", "u4"] "u1")).length - 1⟩,
         .error .AllEndpointsFailed) :=
  C5_all_attempts_fail (fun _ _ => none) ["u2", "u3", "u4"] "u1" 2 5 (fun _ _ => rfl)

/-- **C6.** An endpoint whose bytecode probe response does not start with the
expected prefix has `success = false` (the flag is `block_ok && code_ok &&
bytecode_ok`), so — with pairwise-distinct URLs — it is never present in the
latency map `measure_rpcs` returns, even when both of its sub-calls
completed with HTTP success (`block.ok` and `code.ok` both true). -/
theorem C6_invalid_bytecode_excluded (url : String) (block code : SubCall)
    (results : List RpcCheckResult)
    (hmem : probeCheck url block code ∈ results)
    (hnodup : (results.map (·.url)).Nodup)
    (_hblock : block.ok = true) (_hcode : code.ok = true)
    (hbad : (probeCheck url block code).bytecode_ok = false) :
    url ∉ (measureAggregate results).map (·.1) := by
  intro hu
  obtain ⟨r', hr', hurl, hs, _⟩ := mem_keys_buildLatencies hu
  have hurl2 : r'.url = (probeCheck url block code).url := hurl
  have heq : r' = probeCheck url block code :=
    List.inj_on_of_nodup_map hnodup hr' hmem hurl2
  subst heq
  have hrel : (probeCheck url block code).success
      = (block.ok && code.ok && (probeCheck url block code).bytecode_ok) := rfl
  rw [hrel, hbad] at hs
  simp at hs

/-- Witness for C6_invalid_bytecode_excluded: both sub-calls OK, bytecode
"0xdead" (wrong prefix) — the endpoint is not in the map. -/
theorem C6_invalid_bytecode_excluded_witness :
    "u" ∉ (measureAggregate
      [probeCheck "u"
        ⟨true, some (Json.obj (.cons "result"
          (Json.obj (.cons "number" (Json.str "0x10") .nil)) .nil)), 5⟩
        ⟨true, some (Json.obj (.cons "result" (Json.str "0xdead") .nil)), 7⟩]).map (·.1) :=
  C6_invalid_bytecode_excluded "u"
    ⟨true, some (Json.obj (.cons "result"
      (Json.obj (.cons "number" (Json.str "0x10") .nil)) .nil)), 5⟩
    ⟨true, some (Json.obj (.cons "result" (Json.str "0xdead") .nil)), 7⟩
    _ (by simp) (by simp) rfl rfl rfl

/-- **C7 counterexample.** Two runs that collect the same multiset of
successful (url, outcome) pairs — one "a" and one "x" — decide differently
depending only on fold order: with early abort (plain `consensus`) the first
folded response wins outright, and even with early abort disabled
(`bft_consensus`'s base attempt) the `max_by_key` scan over the equally-voted
tally selects whichever key the iteration yields last.  The decision is not a
function of the multiset, refuting the claim. -/
theorem C7_counterexample_order_dependent :
    consensus 66 [some (Json.str "a"), some (Json.str "x")] = .ok (Json.str "a") ∧
    consensus 66 [some (Json.str "x"), some (Json.str "a")] = .ok (Json.str "x") ∧
    (consensusAttempt 66 false
      [some (Json.str "a"), some (Json.str "x")]).most_common_key = some "x" ∧
    (consensusAttempt 66 false
      [some (Json.str "x"), some (Json.str "a")]).most_common_key = some "a" :=
  ⟨rfl, rfl, rfl, rfl⟩

/-- **C7 (amended).** What does hold: whenever `consensus_attempt` selects a
winning key, that key carries a maximal vote count in the tally. The choice
among equally-voted keys follows the `HashMap` iteration order (fold order in
this model) rather than a fixed rule, and with early abort enabled the first
folded response decides — so the decision is deterministic in the multiset of
outcomes only up to that tie-breaking. -/
theorem C7_winner_has_max_votes (t : Nat) (allow : Bool)
    (outcomes : List (Option Json)) (k : String)
    (h : (consensusAttempt t allow outcomes).most_common_key = some k) :
    ∃ c, (k, c) ∈ (consensusAttempt t allow outcomes).counts ∧
      ∀ p ∈ (consensusAttempt t allow outcomes).counts, p.2 ≤ c := by
  have hc := consensusAttempt_counts t allow outcomes
  have hm := consensusAttempt_mck t allow outcomes
  rw [h] at hm
  by_cases hres :
      (foldOutcomes allow t ⟨[], [], [], false⟩ outcomes).results.isEmpty
  · rw [if_pos hres] at hm
    exact absurd hm (by simp)
  · rw [if_neg hres] at hm
    cases hmax : maxByKeyLast (foldOutcomes allow t ⟨[], [], [], false⟩ outcomes).counts with
    | none => rw [hmax] at hm; simp at hm
    | some q =>
      rw [hmax] at hm
      simp only [Option.map_some', Option.some.injEq] at hm
      subst hm
      refine ⟨q.2, ?_, ?_⟩
      · rw [hc]
        simpa using maxByKeyLast_mem hmax
      · rw [hc]
        exact maxByKeyLast_max hmax

/-- Witness for C7_winner_has_max_votes: a single "a" response, whose key
"a" holds the (maximal) one vote. -/
theorem C7_winner_has_max_votes_witness :
    ∃ c, ("a", c) ∈ (consensusAttempt 66 true [some (Json.str "a")]).counts ∧
      ∀ p ∈ (consensusAttempt 66 true [some (Json.str "a")]).counts, p.2 ≤ c :=
  C7_winner_has_max_votes 66 true [some (Json.str "a")] "a" rfl

/-- **C8.** `pick_fastest` (and the identical selection inside `get_fastest`)
returns `none` exactly on the empty latency map; on a non-empty map it
returns `some` URL whose latency is minimal, ties resolving to the first
minimal entry in iteration order (Rust `Iterator::min_by_key` keeps the first
minimum) — a deterministic function of the iteration sequence. -/
theorem C8_pick_fastest_argmin (m : List (String × Nat)) :
    (m = [] → pick_fastest m = none) ∧
    (m ≠ [] → ∃ u v, pick_fastest m = some u ∧ (u, v) ∈ m ∧ ∀ p ∈ m, v ≤ p.2) ∧
    get_fastest_select m = pick_fastest m := by
  refine ⟨?_, ?_, rfl⟩
  · rintro rfl
    rfl
  · intro hne
    cases hq : minByKeyFirst m with
    | none => exact absurd (minByKeyFirst_eq_none hq) hne
    | some q =>
      refine ⟨q.1, q.2, ?_, ?_, ?_⟩
      · simp [pick_fastest, hq]
      · simpa using minByKeyFirst_mem hq
      · exact minByKeyFirst_min hq

/-- Witness for C8_pick_fastest_argmin on a two-entry map with a unique
minimum at "b". -/
theorem C8_pick_fastest_argmin_witness :
    ∃ u v, pick_fastest [("a", 5), ("b", 3)] = some u ∧
      (u, v) ∈ [("a", 5), ("b", 3)] ∧ ∀ p ∈ [("a", 5), ("b", 3)], v ≤ p.2 :=
  (C8_pick_fastest_argmin [("a", 5), ("b", 3)]).2.1 (by simp)

/-- **C9.** `stable_string` is not injective across JSON value types: the
JSON string "5" maps to itself verbatim while the JSON number 5 serializes to
the same text "5", so the two distinct values share one comparison key; in a
tally over both, the shared key holds 2 votes and its representative value is
whichever response was tallied last (here the number). -/
theorem C9_stable_string_not_injective :
    stableString (Json.str "5") = stableString (Json.num 5) ∧
    Json.str "5" ≠ Json.num 5 ∧
    lookupKey "5" (foldOutcomes false 100 ⟨[], [], [], false⟩
        [some (Json.str "5"), some (Json.num 5)]).key_to_value = some (Json.num 5) ∧
    countOf (foldOutcomes false 100 ⟨[], [], [], false⟩
        [some (Json.str "5"), some (Json.num 5)]).counts "5" = 2 :=
  ⟨rfl, fun h => Json.noConfusion h, rfl, rfl⟩

/-- **C10.** With `retry_count = 0` the outer `while` body never runs:
`send_request` returns `AllEndpointsFailed` having attempted no URL and slept
zero times — although the assembled URL list (which always contains at least
the base URL) is non-empty. -/
theorem C10_zero_retry_no_attempts (oracle : Nat → String → Option Json)
    (ordered : List String) (base_url : String) (network_id : Nat) :
    send_request oracle ordered base_url 0 network_id
      = (⟨[], 0⟩, .error .AllEndpointsFailed) ∧
    assembleUrls ordered base_url ≠ [] := by
  refine ⟨?_, assembleUrls_ne_nil ordered base_url⟩
  unfold send_request
  rw [if_neg (by simpa [List.isEmpty_iff] using assembleUrls_ne_nil ordered base_url)]
  rfl
